import Mathlib

/-!
Verification of the dvara MongoDB wire-protocol proxy.

This file gives a shallow embedding, in Lean, of the parts of the dvara
source relevant to the topology tracker, the wire codec, the getLastError
cache, the query proxy dispatch, the isMaster response rewriter, the
resource pool coordinator, and the per-client connection cap, together
with theorems settling the specification claims about them.

Bytes are modelled as natural numbers below 256, byte streams as lists;
Go int32 values are modelled as Int with explicit two's-complement
conversion at the wire boundary; Go uint arithmetic is modelled with an
explicit modulus where wrap-around matters.  Readers are modelled by
explicit state passing: an operation consumes a prefix of the input list
and returns the rest.
-/

namespace Dvara

/-! ### Wire codec
Embedded from the message-header and document readers of the dvara wire
codec: getInt32, setInt32, messageHeader ToWire/FromWire, readHeader and
readDocument. -/

/-- Two's-complement reading of a 32-bit little-endian unsigned value,
as Go's getInt32 produces when it assembles four bytes into an int32. -/
def toInt32 (u : Nat) : Int :=
  if u % 4294967296 < 2147483648 then ((u % 4294967296 : Nat) : Int)
  else ((u % 4294967296 : Nat) : Int) - 4294967296

/-- Little-endian 32-bit value of four bytes, least significant first. -/
def leU32 (b0 b1 b2 b3 : Nat) : Nat :=
  b0 + b1 * 256 + b2 * 65536 + b3 * 16777216

/-- The four little-endian bytes Go's setInt32 stores for an int32 value
(byte(i), byte(i >> 8), byte(i >> 16), byte(i >> 24)). -/
def encInt32 (i : Int) : List Nat :=
  let u := (i % 4294967296).toNat
  [u % 256, u / 256 % 256, u / 65536 % 256, u / 16777216 % 256]

/-- Go getInt32 on a byte slice at a position (bytes past the end read as 0;
the Go code only calls this inside bounds). -/
def getInt32At (b : List Nat) (pos : Nat) : Int :=
  toInt32 (leU32 (b.getD pos 0) (b.getD (pos + 1) 0)
    (b.getD (pos + 2) 0) (b.getD (pos + 3) 0))

/-- Go headerLen constant. -/
def headerLen : Int := 16

/-- Go messageHeader: message length, request id, response-to, op code,
all wire int32 values. -/
structure MessageHeader where
  messageLength : Int
  requestID : Int
  responseTo : Int
  opCode : Int
deriving DecidableEq, Repr

/-- messageHeader.ToWire: the 16-byte little-endian wire form. -/
def MessageHeader.toWire (m : MessageHeader) : List Nat :=
  encInt32 m.messageLength ++ encInt32 m.requestID ++
    encInt32 m.responseTo ++ encInt32 m.opCode

/-- messageHeader.FromWire on a 16-byte buffer. -/
def fromWire (b : List Nat) : MessageHeader :=
  { messageLength := getInt32At b 0
    requestID := getInt32At b 4
    responseTo := getInt32At b 8
    opCode := getInt32At b 12 }

/-- readHeader: io.ReadFull of 16 bytes then FromWire.  On a short read the
stream is exhausted and no header is produced. -/
def readHeader (s : List Nat) : Option MessageHeader × List Nat :=
  if s.length < 16 then (none, [])
  else (some (fromWire (s.take 16)), s.drop 16)

/-- Outcome of readDocument: a document plus the remaining stream, a
returned error (short read), or a Go runtime panic (no error value is
ever returned to the caller in that case). -/
inductive DocResult where
  | ok (doc : List Nat) (rest : List Nat)
  | fail
  | panicked
deriving DecidableEq, Repr

/-- readDocument: reads a 4-byte length L, allocates make([]byte, L)
(panics for negative L), writes L into the first four bytes with setInt32
(panics with an out-of-range index when 0 ≤ L < 4), then io.ReadFull of
the remaining L−4 bytes. -/
def readDocument (s : List Nat) : DocResult :=
  match s with
  | b0 :: b1 :: b2 :: b3 :: rest =>
    let size : Int := toInt32 (leU32 b0 b1 b2 b3)
    if size < 0 then .panicked
    else if size < 4 then .panicked
    else
      let n := (size - 4).toNat
      if rest.length < n then .fail
      else .ok (encInt32 size ++ rest.take n) (rest.drop n)
  | _ => .fail

/-- io.CopyN(dst, src, n) semantics: the bytes copied, the remaining
source, and whether the full count was transferred (n < 0 makes the
limit reader report EOF at once; a short source yields what it has and
an error). -/
def copyN (n : Int) (src : List Nat) : List Nat × List Nat × Bool :=
  if n < 0 then ([], src, false)
  else if n = 0 then ([], src, true)
  else
    let k := n.toNat
    if src.length < k then (src, [], false)
    else (src.take k, src.drop k, true)

/-! ### Last-error cache and GetLastErrorRewriter
Embedded from LastError, LastError.Exists, LastError.Reset and
GetLastErrorRewriter.Rewrite of response_rewriter.go. -/

/-- LastError: the cached getLastError reply, a header pointer and the
buffered trailing bytes. -/
structure LastError where
  header : Option MessageHeader
  rest : List Nat
deriving DecidableEq, Repr

/-- LastError.Exists: true when a header is cached. -/
def LastError.exists (l : LastError) : Bool :=
  l.header.isSome

/-- LastError.Reset: clears the header and the buffered bytes. -/
def LastError.reset (_ : LastError) : LastError :=
  { header := none, rest := [] }

/-- The four byte streams a proxied session touches: unread client input,
unread server input, bytes written upstream, bytes written back to the
client. -/
structure WireState where
  clientIn : List Nat
  serverIn : List Nat
  serverOut : List Nat
  clientOut : List Nat
deriving DecidableEq, Repr

/-- Result of GetLastErrorRewriter.Rewrite: the streams and the cache as
left behind, on the success and on the error path alike (Go mutates the
LastError in place, so the cache state after an error is observable). -/
inductive GleResult where
  | ok (st : WireState) (le : LastError)
  | err (st : WireState) (le : LastError)
deriving DecidableEq, Repr

/-- The streams left behind by a Rewrite call. -/
def GleResult.state : GleResult → WireState
  | .ok st _ => st
  | .err st _ => st

/-- The cache left behind by a Rewrite call. -/
def GleResult.cache : GleResult → LastError
  | .ok _ le => le
  | .err _ le => le

/-- Whether the Rewrite call returned an error. -/
def GleResult.isErr : GleResult → Bool
  | .ok _ _ => false
  | .err _ _ => true

/-- The running total Go accumulates as written += len(b) over the
buffered parts. -/
def partsLen (parts : List (List Nat)) : Int :=
  parts.foldl (fun acc b => acc + (b.length : Int)) 0

/-- GetLastErrorRewriter.Rewrite.  Cache miss: write the buffered parts
upstream, stream the remaining messageLength − written body bytes from the
client, read the reply header into the cache, copy the reply payload into
the cache, then write the cached header and payload to the client.  Cache
hit: discard messageLength − written bytes from the client, point the
cached header's responseTo at the new request id, and write the cached
header and payload to the client without touching the server. -/
def gleRewrite (h : MessageHeader) (parts : List (List Nat))
    (st : WireState) (le : LastError) : GleResult :=
  match le.header with
  | none =>
    let written := partsLen parts
    let st1 := { st with serverOut := st.serverOut ++ parts.flatten }
    let pending : Int := h.messageLength - written
    let (copied, restC, ok1) := copyN pending st1.clientIn
    let st2 := { st1 with clientIn := restC, serverOut := st1.serverOut ++ copied }
    if ok1 then
      match readHeader st2.serverIn with
      | (none, restS) => .err { st2 with serverIn := restS } { le with header := none }
      | (some lh, restS) =>
        let st3 := { st2 with serverIn := restS }
        let le1 := { le with header := some lh }
        let pending2 : Int := lh.messageLength - headerLen
        let (copied2, restS2, ok2) := copyN pending2 st3.serverIn
        let st4 := { st3 with serverIn := restS2 }
        let le2 := { le1 with rest := le1.rest ++ copied2 }
        if ok2 then
          .ok { st4 with clientOut := st4.clientOut ++ lh.toWire ++ le2.rest } le2
        else .err st4 le2
    else .err st2 le
  | some ch =>
    let written := partsLen parts
    let pending : Int := h.messageLength - written
    let (_, restC, ok1) := copyN pending st.clientIn
    let st1 := { st with clientIn := restC }
    if ok1 then
      let ch1 := { ch with responseTo := h.requestID }
      let le1 := { le with header := some ch1 }
      .ok { st1 with clientOut := st1.clientOut ++ ch1.toWire ++ le1.rest } le1
    else .err st1 le

/-- A cache is coherent when either nothing is stored, or the stored
header is accompanied by its complete trailing payload. -/
def lastErrorComplete (le : LastError) : Bool :=
  match le.header with
  | none => le.rest == []
  | some ch => (le.rest.length : Int) == ch.messageLength - headerLen

/-! ### Query proxy dispatch
Embedded from ProxyQuery.Proxy of response_rewriter.go (identical logic in
ProxyMessage.proxyQuery of proxy/proxy_message.go): rewriter selection and
the resetLastError flag, plus the cache reset it triggers. -/

/-- ASCII case folding of a byte, modelling strings.EqualFold for the
ASCII command names the proxy inspects. -/
def foldChar (c : Char) : Nat :=
  if 65 ≤ c.toNat ∧ c.toNat ≤ 90 then c.toNat + 32 else c.toNat

/-- strings.EqualFold restricted to ASCII: equality after case folding. -/
def eqFold (a b : String) : Bool :=
  a.data.map foldChar == b.data.map foldChar

/-- hasKey: a case-insensitive scan over the top-level key names of the
unmarshalled query document. -/
def hasKey (d : List String) (k : String) : Bool :=
  d.any (fun n => eqFold n k)

/-- Bytes of an ASCII collection name with the trailing NUL, as
readCString returns it. -/
def cstrBytes (s : String) : List Nat :=
  s.data.map Char.toNat ++ [0]

/-- The adminCollectionName constant of response_rewriter.go. -/
def adminCollectionName : List Nat := cstrBytes "admin.$cmd"

/-- The cmdCollectionSuffix constant of response_rewriter.go. -/
def cmdCollectionSuffix : List Nat := cstrBytes ".$cmd"

/-- Which response rewriter was selected for the query, if any. -/
inductive RewriterKind where
  | isMasterRW
  | replSetGetStatusRW
deriving DecidableEq, Repr

/-- How ProxyQuery.Proxy routes an OpQuery after buffering its prelude:
either it delegates to the GetLastErrorRewriter, or it forwards the query
with an optional response rewriter and the computed resetLastError flag. -/
inductive QueryRoute where
  | getLastErrorRoute
  | proxied (rewriter : Option RewriterKind) (resetLastError : Bool)
deriving DecidableEq, Repr

/-- The dispatch logic of ProxyQuery.Proxy on the parsed query: when the
collection ends in .$cmd (or proxy-all is on), a getLastError key
delegates; an isMaster key selects the isMaster rewriter and
replSetGetStatus on admin.$cmd overrides it; when a rewriter was selected
the code then assigns resetLastError = hasKey(q, "forShell"). -/
def proxyQueryRoute (proxyAll : Bool) (fullCollectionName : List Nat)
    (q : List String) : QueryRoute :=
  if proxyAll || cmdCollectionSuffix.isSuffixOf fullCollectionName then
    if hasKey q "getLastError" then .getLastErrorRoute
    else
      let rewriter : Option RewriterKind :=
        let r := if hasKey q "isMaster" then some .isMasterRW else none
        if adminCollectionName == fullCollectionName && hasKey q "replSetGetStatus" then
          some .replSetGetStatusRW
        else r
      let resetLastError := if rewriter.isSome then hasKey q "forShell" else true
      .proxied rewriter resetLastError
  else .proxied none true

/-- The cache effect of ProxyQuery.Proxy: on the non-delegated path,
if resetLastError && lastError.Exists() the cache is reset. -/
def proxyQueryCacheAfter (route : QueryRoute) (le : LastError) : LastError :=
  match route with
  | .getLastErrorRoute => le
  | .proxied _ resetLastError =>
    if resetLastError && le.exists then le.reset else le

/-! ### isMaster response rewriting
Embedded from isMasterResponse and IsMasterResponseRewriter.Rewrite of
response_rewriter.go.  The struct has bson tags for hosts, primary and me
only; every other top-level key of the reply document (passives included)
is carried by the inline Extra map and round-trips untouched. -/

/-- A BSON value as far as the rewriter's Extra map needs: a string or an
array of strings. -/
inductive BVal where
  | str (s : String)
  | strList (l : List String)
deriving DecidableEq, Repr

/-- isMasterResponse: hosts, primary, me, and the inline Extra document
holding every other top-level key in reply order. -/
structure IsMasterResponse where
  hosts : List String
  primary : String
  me : String
  extra : List (String × BVal)
deriving DecidableEq, Repr

/-- The error a ProxyMapper can return: the typed ProxyMapperError
carrying the ignored member's state, or any other error. -/
inductive ProxyErr where
  | pme (state : String)
  | unknownErr
deriving DecidableEq, Repr

deriving instance DecidableEq for Except

/-- The hosts loop of IsMasterResponseRewriter.Rewrite: map each entry,
drop entries whose mapping fails with a ProxyMapperError (a warning is
logged when the state is not ARBITER), and fail on any other error. -/
def mapHosts (mapper : String → Except ProxyErr String) :
    List String → Except ProxyErr (List String)
  | [] => .ok []
  | h :: hs =>
    match mapper h with
    | .ok newH => (mapHosts mapper hs).map (newH :: ·)
    | .error (.pme _) => mapHosts mapper hs
    | .error .unknownErr => .error .unknownErr

/-- The document transformation of IsMasterResponseRewriter.Rewrite
(after the reply has been read and the topology compared): rewrite hosts
with the drop-on-ignored policy, rewrite primary and me when non-empty
(failures there are fatal), and pass the inline Extra through. -/
def isMasterRewriteDoc (mapper : String → Except ProxyErr String)
    (q : IsMasterResponse) : Except ProxyErr IsMasterResponse := do
  let newHosts ← mapHosts mapper q.hosts
  let newPrimary ← if q.primary ≠ "" then mapper q.primary else .ok q.primary
  let newMe ← if q.me ≠ "" then mapper q.me else .ok q.me
  .ok { hosts := newHosts, primary := newPrimary, me := newMe, extra := q.extra }

/-! ### Replica-set state
Embedded from rs_state.go: statusMember, replSetGetStatusResponse,
sameRSMembers, sameIMMembers, ReplicaSetState.Equal / SameRS / SameIM,
and the single-node validation of NewReplicaSetState. -/

/-- statusMember of response_rewriter.go: the name, stateStr and self
fields of one replSetGetStatus member. -/
structure StatusMember where
  name : String
  state : String
  self : Bool
deriving DecidableEq, Repr

/-- replSetGetStatusResponse: the set name and the member list. -/
structure RSStatusResponse where
  name : String
  members : List StatusMember
deriving DecidableEq, Repr

/-- Byte-order comparison of strings, as Go's sort.Strings orders ASCII
strings (lexicographic on the character values). -/
def strLeB : List Char → List Char → Bool
  | [], _ => true
  | _ :: _, [] => false
  | a :: as, b :: bs =>
    if a.toNat < b.toNat then true
    else if b.toNat < a.toNat then false
    else strLeB as bs

/-- The ordering predicate used for sorting host and member-key strings. -/
def strLe (a b : String) : Prop :=
  strLeB a.data b.data = true

instance : DecidableRel strLe := fun a b => by
  unfold strLe
  infer_instance

/-- sort.Strings: ascending sort of a string slice. -/
def sortStrings (l : List String) : List String :=
  List.insertionSort strLe l

/-- The name:state key sameRSMembers builds for each member with
fmt.Sprintf. -/
def memberKey (m : StatusMember) : String :=
  m.name ++ ":" ++ m.state

/-- sameRSMembers: nil-or-empty on both sides is equal; one nil side is
not; otherwise the sorted name:state key lists are compared pairwise.
The set name field is never consulted. -/
def sameRSMembers (a b : Option RSStatusResponse) : Bool :=
  let aEmpty := match a with | none => true | some ar => ar.members.isEmpty
  let bEmpty := match b with | none => true | some br => br.members.isEmpty
  if aEmpty && bEmpty then true
  else
    match a, b with
    | some ar, some br =>
      if ar.members.length != br.members.length then false
      else sortStrings (ar.members.map memberKey) == sortStrings (br.members.map memberKey)
    | _, _ => false

/-- The emptyIsMasterResponse a nil side is replaced with. -/
def emptyIsMasterResponse : IsMasterResponse :=
  { hosts := [], primary := "", me := "", extra := [] }

/-- sameIMMembers: nil sides become the empty response; the host-list
lengths must match; then sorted hosts with the primary appended after
sorting are compared pairwise. -/
def sameIMMembers (a b : Option IsMasterResponse) : Bool :=
  match a, b with
  | none, none => true
  | _, _ =>
    let a1 := a.getD emptyIsMasterResponse
    let b1 := b.getD emptyIsMasterResponse
    if a1.hosts.length != b1.hosts.length then false
    else
      let aHosts := sortStrings a1.hosts ++ [a1.primary]
      let bHosts := sortStrings b1.hosts ++ [b1.primary]
      aHosts == bHosts

/-- ReplicaSetState: the last replSetGetStatus and isMaster replies, plus
the single-node address sentinel. -/
structure ReplicaSetState where
  lastRS : Option RSStatusResponse
  lastIM : Option IsMasterResponse
  singleAddr : String
deriving DecidableEq, Repr

/-- ReplicaSetState.SameRS. -/
def ReplicaSetState.sameRS (r : ReplicaSetState) (o : Option RSStatusResponse) : Bool :=
  sameRSMembers r.lastRS o

/-- ReplicaSetState.SameIM. -/
def ReplicaSetState.sameIM (r : ReplicaSetState) (o : Option IsMasterResponse) : Bool :=
  sameIMMembers r.lastIM o

/-- ReplicaSetState.Equal: SameIM on the isMaster sides and SameRS on the
replSetGetStatus sides. -/
def ReplicaSetState.equal (r o : ReplicaSetState) : Bool :=
  r.sameIM o.lastIM && r.sameRS o.lastRS

/-- The single-node validation of NewReplicaSetState (rs_state.go lines
52-57), translated condition for condition: when the status reply has
exactly one member, the constructor fails if
n.State != "PRIMARY" || n.State != "SECONDARY".  Returns true when that
check raises the error. -/
def singleNodeCheckFails (lastRS : Option RSStatusResponse) : Bool :=
  match lastRS with
  | none => false
  | some rs =>
    match rs.members with
    | [n] => (n.state != "PRIMARY") || (n.state != "SECONDARY")
    | _ => false

/-! ### Resource pool coordinator
Embedded from Pool.manage of the vendored rpool package.  The coordinator
state is the idle LRU list (modelled by its use timestamps, oldest first),
the checked-out count `out`, the waiter-queue length, and the closed flag.
The environment side of the protocol is tracked by two counters: `held`,
the resources currently checked out to callers (the members of
outResources that are out), and `pendingNew`, the newSentinel tokens
handed to Acquire callers that have not yet come back through p.new or a
sentinel discard.  Release and Discard are only ever invoked by a caller
holding a resource, and p.new / a sentinel discard only by a caller
holding a token (the errWrongPool branch kills the coordinator otherwise),
which is what the guards on the reachability relation encode. -/

/-- The pool parameters manage reads: Max, MinIdle and IdleTimeout. -/
structure PoolCfg where
  max : Nat
  minIdle : Nat
  idleTimeout : Int
deriving DecidableEq, Repr

/-- The coordinator-loop state of Pool.manage together with the two
environment counters. -/
structure PoolSt where
  idle : List Int
  out : Nat
  waiting : Nat
  held : Nat
  pendingNew : Nat
  closed : Bool
deriving DecidableEq, Repr

/-- The acquire arm: closed requests get the closed sentinel; otherwise
the newest idle entry is handed out; at out == Max the caller queues;
otherwise a newSentinel is handed out and the slot counted as out. -/
def acquireStep (cfg : PoolCfg) (s : PoolSt) : PoolSt :=
  if s.closed then s
  else if s.idle.length > 0 then
    { s with idle := s.idle.dropLast, out := s.out + 1, held := s.held + 1 }
  else if s.out == cfg.max then
    { s with waiting := s.waiting + 1 }
  else
    { s with out := s.out + 1, pendingNew := s.pendingNew + 1 }

/-- The p.new arm: a freshly created resource arrives and is recorded in
outResources; its token is spent. -/
def newArrivedStep (s : PoolSt) : PoolSt :=
  { s with pendingNew := s.pendingNew - 1, held := s.held + 1 }

/-- The release arm: a waiter, if any, receives the resource directly;
otherwise out drops and the resource joins the idle list with the current
time — unless the pool is closed, in which case it goes to the closers. -/
def releaseStep (s : PoolSt) (now : Int) : PoolSt :=
  if s.waiting > 0 then
    { s with waiting := s.waiting - 1 }
  else if s.closed then
    { s with out := s.out - 1, held := s.held - 1 }
  else
    { s with out := s.out - 1, held := s.held - 1, idle := s.idle ++ [now] }

/-- The discard arm for a real resource: it is removed from outResources
and scheduled for closing; a waiter, if any, is handed a newSentinel in
its place (out stays, the slot is reused), otherwise out drops. -/
def discardStep (s : PoolSt) : PoolSt :=
  if s.waiting > 0 then
    { s with held := s.held - 1, waiting := s.waiting - 1, pendingNew := s.pendingNew + 1 }
  else
    { s with held := s.held - 1, out := s.out - 1 }

/-- The discard arm for the newSentinel (a failed New()): no resource to
close; a waiter, if any, is handed a fresh newSentinel, otherwise out
drops. -/
def discardSentinelStep (s : PoolSt) : PoolSt :=
  if s.waiting > 0 then
    { s with waiting := s.waiting - 1 }
  else
    { s with pendingNew := s.pendingNew - 1, out := s.out - 1 }

/-- Length of the prefix of idle entries whose age reaches IdleTimeout
(the cleanup loop breaks at the first young entry). -/
def tickCut (idleTimeout now : Int) : List Int → Nat
  | [] => 0
  | u :: us =>
    if now - u < idleTimeout then 0
    else 1 + tickCut idleTimeout now us

/-- The idle-ticker arm: entries beyond the MinIdle floor, scanned oldest
first, are closed while their age reaches IdleTimeout. -/
def idleTickStep (cfg : PoolCfg) (s : PoolSt) (now : Int) : PoolSt :=
  let eligibleOffset : Int := (s.idle.length : Int) - (cfg.minIdle : Int)
  if eligibleOffset ≤ 0 then s
  else
    let idleLen := tickCut cfg.idleTimeout now (s.idle.take eligibleOffset.toNat)
    { s with idle := s.idle.drop idleLen }

/-- The close arm: a second close is an error and changes nothing; the
first sets the closed flag and schedules the idle resources for closing
(the code does not clear the idle slice itself). -/
def closeStep (s : PoolSt) : PoolSt :=
  if s.closed then s else { s with closed := true }

/-- The states the coordinator loop can reach from an empty pool under
legal use of the Acquire / Release / Discard API. -/
inductive PoolReach (cfg : PoolCfg) : PoolSt → Prop
  | init : PoolReach cfg { idle := [], out := 0, waiting := 0, held := 0, pendingNew := 0, closed := false }
  | acquire {s} : PoolReach cfg s → PoolReach cfg (acquireStep cfg s)
  | newArrived {s} : PoolReach cfg s → 0 < s.pendingNew → PoolReach cfg (newArrivedStep s)
  | release {s} (now : Int) : PoolReach cfg s → 0 < s.held → PoolReach cfg (releaseStep s now)
  | discard {s} : PoolReach cfg s → 0 < s.held → PoolReach cfg (discardStep s)
  | discardSentinel {s} : PoolReach cfg s → 0 < s.pendingNew → PoolReach cfg (discardSentinelStep s)
  | idleTick {s} (now : Int) : PoolReach cfg s → PoolReach cfg (idleTickStep cfg s now)
  | close {s} : PoolReach cfg s → PoolReach cfg (closeStep s)

/-! ### Per-client connection cap and Proxy.Start validation
Embedded from maxPerClientConnections and Proxy.Start of the vendored
proxy.go.  The counts map is an association list with the Go map's
absent-reads-as-zero and delete-on-one behaviour; uint arithmetic wraps
modulo 2^64. -/

/-- Modulus of Go's uint. -/
def uintMod : Nat := 18446744073709551616

/-- Reading the counts map: the first binding for the address, zero when
absent. -/
def mpcLookup (counts : List (String × Nat)) (ip : String) : Nat :=
  match counts with
  | [] => 0
  | (k, v) :: rest => if k == ip then v else mpcLookup rest ip

/-- Writing the counts map: replace the first binding, or append one. -/
def mpcSet (counts : List (String × Nat)) (ip : String) (v : Nat) :
    List (String × Nat) :=
  match counts with
  | [] => [(ip, v)]
  | (k, w) :: rest => if k == ip then (ip, v) :: rest else (k, w) :: mpcSet rest ip v

/-- Deleting from the counts map: drop the first binding. -/
def mpcErase (counts : List (String × Nat)) (ip : String) :
    List (String × Nat) :=
  match counts with
  | [] => []
  | (k, w) :: rest => if k == ip then rest else (k, w) :: mpcErase rest ip

/-- maxPerClientConnections.inc: reject (true) when the current count has
reached the cap, otherwise store current + 1.  Returns the new map and the
rejection flag. -/
def mpcInc (max : Nat) (counts : List (String × Nat)) (ip : String) :
    List (String × Nat) × Bool :=
  let current := mpcLookup counts ip
  if current ≥ max then (counts, true)
  else (mpcSet counts ip ((current + 1) % uintMod), false)

/-- maxPerClientConnections.dec: delete the binding at one, otherwise
store current − 1 (uint arithmetic). -/
def mpcDec (counts : List (String × Nat)) (ip : String) :
    List (String × Nat) :=
  let current := mpcLookup counts ip
  if current == 1 then mpcErase counts ip
  else mpcSet counts ip ((current + (uintMod - 1)) % uintMod)

/-- The counts maps reachable through the serve loop's protocol: inc on
every accepted connection (a rejection leaves the map unchanged), dec
only from the deferred cleanup of a session whose inc succeeded — hence
only while the address has a live session, i.e. a positive count. -/
inductive MpcReach (max : Nat) : List (String × Nat) → Prop
  | init : MpcReach max []
  | connect {c} (ip : String) : MpcReach max c → MpcReach max (mpcInc max c ip).1
  | disconnect {c} (ip : String) : MpcReach max c → 1 ≤ mpcLookup c ip →
      MpcReach max (mpcDec c ip)

/-- Outcome of the prologue of clientServeLoop: the counts map, the
client bytes still unread, and whether the session proceeds. -/
structure ServeStart where
  counts : List (String × Nat)
  clientRemaining : List Nat
  accepted : Bool
deriving DecidableEq, Repr

/-- The prologue of clientServeLoop: when inc reports the cap reached the
connection is closed at once — before any byte of it is read — and the
session never starts. -/
def clientServeStart (max : Nat) (counts : List (String × Nat)) (ip : String)
    (clientIn : List Nat) : ServeStart :=
  let r := mpcInc max counts ip
  if r.2 then { counts := r.1, clientRemaining := clientIn, accepted := false }
  else { counts := r.1, clientRemaining := clientIn, accepted := true }

/-- The errors Proxy.Start returns from its configuration checks. -/
inductive StartErr where
  | zeroMaxConnections
  | zeroMaxPerClientConnections
deriving DecidableEq, Repr

/-- The validation at the top of Proxy.Start: MaxConnections and
MaxPerClientConnections must both be non-zero. -/
def proxyStartCheck (maxConnections maxPerClientConnections : Nat) :
    Option StartErr :=
  if maxConnections == 0 then some .zeroMaxConnections
  else if maxPerClientConnections == 0 then some .zeroMaxPerClientConnections
  else none

/-! ### Concrete instances used by individual claims -/

/-- The proxy map a↦1, b↦2, c↦3 of the canonical isMaster rewriting
example; every other host is an unknown member. -/
def exampleMapper : String → Except ProxyErr String := fun s =>
  if s == "a" then .ok "1"
  else if s == "b" then .ok "2"
  else if s == "c" then .ok "3"
  else .error .unknownErr

/-- The upstream isMaster reply of the canonical rewriting example. -/
def exampleIMReply : IsMasterResponse :=
  { hosts := ["a", "b", "c"], primary := "b", me := "a",
    extra := [("foo", .str "bar"), ("passives", .strList ["a"])] }

/-- An isMaster reply shared by the two set-name snapshots below. -/
def nameIM : Option IsMasterResponse :=
  some { hosts := ["a:1"], primary := "a:1", me := "", extra := [] }

/-- The getLastError request of the torn-cache run: a bare header-only
query whose buffered parts account for the whole message. -/
def tornReqHeader : MessageHeader :=
  { messageLength := 16, requestID := 1, responseTo := 0, opCode := 2004 }

/-- The buffered parts of the torn-cache run. -/
def tornParts : List (List Nat) := [tornReqHeader.toWire]

/-- The stream state of the torn-cache run: the server announces a
30-byte reply but delivers only 4 payload bytes before the copy fails. -/
def tornSt : WireState :=
  { clientIn := [],
    serverIn := (MessageHeader.toWire { messageLength := 30, requestID := 5, responseTo := 1, opCode := 1 }) ++ [9, 9, 9, 9],
    serverOut := [], clientOut := [] }

/-- A snapshot of a set named rs1 with one PRIMARY member. -/
def nameSnap1 : ReplicaSetState :=
  { lastRS := some { name := "rs1", members := [{ name := "a:1", state := "PRIMARY", self := true }] },
    lastIM := nameIM, singleAddr := "" }

/-- The same snapshot except that the set is named rs2. -/
def nameSnap2 : ReplicaSetState :=
  { lastRS := some { name := "rs2", members := [{ name := "a:1", state := "PRIMARY", self := true }] },
    lastIM := nameIM, singleAddr := "" }

end Dvara

namespace Dvara

/-! ### Helper lemmas -/

/-- A successful copyN transferred exactly the requested count: the count
was non-negative, the copied bytes are the stream's prefix of that length
and the remainder is the matching suffix. -/
theorem copyN_ok {n : Int} {src copied rest' : List Nat}
    (h : copyN n src = (copied, rest', true)) :
    0 ≤ n ∧ copied = src.take n.toNat ∧ rest' = src.drop n.toNat ∧
      (copied.length : Int) = n := by
  unfold copyN at h
  by_cases h1 : n < 0
  · simp [h1] at h
  · by_cases h2 : n = 0
    · subst h2
      simp at h
      obtain ⟨hc, hr⟩ := h
      subst hc
      subst hr
      simp
    · by_cases h3 : src.length < n.toNat
      · simp [h1, h2, h3] at h
      · simp [h1, h2, h3] at h
        obtain ⟨hc, hr⟩ := h
        subst hc
        subst hr
        refine ⟨by omega, rfl, rfl, ?_⟩
        have hlen : n.toNat ≤ src.length := by omega
        simp [List.length_take, Nat.min_eq_left hlen]
        omega

/-- Inductive invariant of the pool coordinator: the live total never
exceeds Max, and the out counter always equals the resources checked out
plus the creation tokens outstanding. -/
theorem poolReach_inv {cfg : PoolCfg} {s : PoolSt} (h : PoolReach cfg s) :
    s.idle.length + s.out ≤ cfg.max ∧ s.out = s.held + s.pendingNew := by
  induction h with
  | init => simp
  | @acquire s _ ih =>
    obtain ⟨ih1, ih2⟩ := ih
    unfold acquireStep
    split_ifs with h1 h2 h3
    · exact ⟨ih1, ih2⟩
    · constructor
      · simp only [List.length_dropLast]
        omega
      · simp only []
        omega
    · exact ⟨by simpa using ih1, by simpa using ih2⟩
    · have hne : s.out ≠ cfg.max := by simpa using h3
      constructor
      · simp only []
        omega
      · simp only []
        omega
  | @newArrived s _ hpend ih =>
    obtain ⟨ih1, ih2⟩ := ih
    unfold newArrivedStep
    exact ⟨by simpa using ih1, by simp only []; omega⟩
  | @release s now _ hheld ih =>
    obtain ⟨ih1, ih2⟩ := ih
    unfold releaseStep
    split_ifs with h1 h2
    · exact ⟨by simpa using ih1, by simp only []; omega⟩
    · exact ⟨by simp only []; omega, by simp only []; omega⟩
    · constructor
      · simp only [List.length_append, List.length_cons, List.length_nil]
        omega
      · simp only []
        omega
  | @discard s _ hheld ih =>
    obtain ⟨ih1, ih2⟩ := ih
    unfold discardStep
    split_ifs with h1
    · exact ⟨by simpa using ih1, by simp only []; omega⟩
    · exact ⟨by simp only []; omega, by simp only []; omega⟩
  | @discardSentinel s _ hpend ih =>
    obtain ⟨ih1, ih2⟩ := ih
    unfold discardSentinelStep
    split_ifs with h1
    · exact ⟨by simpa using ih1, by simp only []; omega⟩
    · exact ⟨by simp only []; omega, by simp only []; omega⟩
  | @idleTick s now _ ih =>
    obtain ⟨ih1, ih2⟩ := ih
    unfold idleTickStep
    dsimp only
    split_ifs with h1
    · exact ⟨ih1, ih2⟩
    · constructor
      · simp only [List.length_drop]
        omega
      · simpa using ih2
  | @close s _ ih =>
    obtain ⟨ih1, ih2⟩ := ih
    unfold closeStep
    split_ifs with h1
    · exact ⟨ih1, ih2⟩
    · exact ⟨by simpa using ih1, by simpa using ih2⟩

/-- Membership after an association-list write: every binding was already
present or is the one just written. -/
theorem mem_mpcSet {c : List (String × Nat)} {ip : String} {v : Nat}
    {p : String × Nat} (h : p ∈ mpcSet c ip v) : p ∈ c ∨ p = (ip, v) := by
  induction c with
  | nil => simpa [mpcSet] using h
  | cons q rest ih =>
    obtain ⟨k, w⟩ := q
    by_cases hk : k == ip
    · simp [mpcSet, hk] at h
      rcases h with h | h
      · exact Or.inr (by simp [h])
      · exact Or.inl (List.mem_cons_of_mem _ h)
    · simp [mpcSet, hk] at h
      rcases h with h | h
      · exact Or.inl (by simp [h])
      · rcases ih h with h' | h'
        · exact Or.inl (List.mem_cons_of_mem _ h')
        · exact Or.inr h'

/-- Membership after an association-list delete: every binding was
already present. -/
theorem mem_mpcErase {c : List (String × Nat)} {ip : String}
    {p : String × Nat} (h : p ∈ mpcErase c ip) : p ∈ c := by
  induction c with
  | nil => simp [mpcErase] at h
  | cons q rest ih =>
    obtain ⟨k, w⟩ := q
    by_cases hk : k == ip
    · simp [mpcErase, hk] at h
      exact List.mem_cons_of_mem _ h
    · simp [mpcErase, hk] at h
      rcases h with h | h
      · simp [h]
      · exact List.mem_cons_of_mem _ (ih h)

/-- A lookup returns zero or a stored value, so it is bounded by any
bound on the stored values. -/
theorem mpcLookup_le_of_entries {c : List (String × Nat)} {m : Nat}
    (h : ∀ p ∈ c, p.2 ≤ m) (ip : String) : mpcLookup c ip ≤ m := by
  induction c with
  | nil => simp [mpcLookup]
  | cons q rest ih =>
    obtain ⟨k, w⟩ := q
    by_cases hk : k == ip
    · simpa [mpcLookup, hk] using h (k, w) (by simp)
    · simp only [mpcLookup, hk, if_false, Bool.false_eq_true]
      exact ih (fun p hp => h p (List.mem_cons_of_mem _ hp))

/-- Inductive invariant of the per-client counter: every stored count is
at most the cap. -/
theorem mpcReach_entries {m : Nat} {c : List (String × Nat)}
    (h : MpcReach m c) (hmax : m < uintMod) : ∀ p ∈ c, p.2 ≤ m := by
  induction h with
  | init => simp
  | @connect c ip _ ih =>
    unfold mpcInc
    by_cases hcap : mpcLookup c ip ≥ m
    · simpa [hcap] using ih
    · have hcur : mpcLookup c ip < m := by omega
      simp only [hcap, if_false]
      intro p hp
      rcases mem_mpcSet hp with h' | h'
      · exact ih p h'
      · have : (mpcLookup c ip + 1) % uintMod = mpcLookup c ip + 1 := by
          unfold uintMod at hmax ⊢
          omega
        simp [h', this]
        omega
  | @disconnect c ip _ hlive ih =>
    unfold mpcDec
    by_cases hone : mpcLookup c ip == 1
    · simp only [hone, if_true]
      exact fun p hp => ih p (mem_mpcErase hp)
    · have hcur : 2 ≤ mpcLookup c ip := by
        have := mpcLookup_le_of_entries ih ip
        simp at hone
        omega
      have hle := mpcLookup_le_of_entries ih ip
      simp only [hone, if_false]
      intro p hp
      rcases mem_mpcSet hp with h' | h'
      · exact ih p h'
      · have hmod : (mpcLookup c ip + (uintMod - 1)) % uintMod
            = mpcLookup c ip - 1 := by
          unfold uintMod at hmax ⊢
          omega
        simp [h', hmod]
        omega

/-- The byte-order comparison is total. -/
theorem strLeB_total (as bs : List Char) :
    strLeB as bs = true ∨ strLeB bs as = true := by
  induction as generalizing bs with
  | nil => exact Or.inl rfl
  | cons a as ih =>
    cases bs with
    | nil => exact Or.inr rfl
    | cons b bs =>
      by_cases h1 : a.toNat < b.toNat
      · exact Or.inl (by simp [strLeB, h1])
      · by_cases h2 : b.toNat < a.toNat
        · exact Or.inr (by simp [strLeB, h2])
        · rcases ih bs with h | h
          · exact Or.inl (by simp [strLeB, h1, h2, h])
          · exact Or.inr (by simp [strLeB, h1, h2, h])

/-- The byte-order comparison is transitive. -/
theorem strLeB_trans {as bs cs : List Char}
    (h1 : strLeB as bs = true) (h2 : strLeB bs cs = true) :
    strLeB as cs = true := by
  induction as generalizing bs cs with
  | nil => rfl
  | cons a as ih =>
    cases bs with
    | nil => simp [strLeB] at h1
    | cons b bs =>
      cases cs with
      | nil => simp [strLeB] at h2
      | cons c cs =>
        simp only [strLeB] at h1 h2 ⊢
        by_cases hab : a.toNat < b.toNat
        · by_cases hbc : b.toNat < c.toNat
          · simp [Nat.lt_trans hab hbc]
          · by_cases hcb : c.toNat < b.toNat
            · simp [hbc, hcb] at h2
            · have hac : a.toNat < c.toNat := by omega
              simp [hac]
        · by_cases hba : b.toNat < a.toNat
          · simp [hab, hba] at h1
          · by_cases hbc : b.toNat < c.toNat
            · have hac : a.toNat < c.toNat := by omega
              simp [hac]
            · by_cases hcb : c.toNat < b.toNat
              · simp [hbc, hcb] at h2
              · have hac : ¬ a.toNat < c.toNat := by omega
                have hca : ¬ c.toNat < a.toNat := by omega
                simp [hab, hba] at h1
                simp [hbc, hcb] at h2
                simp [hac, hca]
                exact ih h1 h2

/-- The byte-order comparison is antisymmetric. -/
theorem strLeB_antisymm {as bs : List Char}
    (h1 : strLeB as bs = true) (h2 : strLeB bs as = true) : as = bs := by
  induction as generalizing bs with
  | nil =>
    cases bs with
    | nil => rfl
    | cons b bs => simp [strLeB] at h2
  | cons a as ih =>
    cases bs with
    | nil => simp [strLeB] at h1
    | cons b bs =>
      simp only [strLeB] at h1 h2
      by_cases hab : a.toNat < b.toNat
      · have hba : ¬ b.toNat < a.toNat := by omega
        simp [hab, hba] at h2
      · by_cases hba : b.toNat < a.toNat
        · simp [hab, hba] at h1
        · simp [hab, hba] at h1 h2
          have hc : a = b := by
            apply Char.eq_of_val_eq
            apply UInt32.eq_of_toBitVec_eq
            apply BitVec.eq_of_toNat_eq
            simp [Char.toNat, UInt32.toNat] at hab hba
            omega
          rw [hc, ih h1 h2]

instance : IsTotal String strLe :=
  ⟨fun a b => strLeB_total a.data b.data⟩

instance : IsTrans String strLe :=
  ⟨fun _ _ _ h1 h2 => strLeB_trans h1 h2⟩

instance : IsAntisymm String strLe :=
  ⟨fun a b h1 h2 => by
    have hd : a.data = b.data := strLeB_antisymm h1 h2
    cases a
    cases b
    simp_all⟩

/-- Equal sort.Strings outputs characterize host lists that are
permutations of one another. -/
theorem sortStrings_eq_iff_perm (xs ys : List String) :
    sortStrings xs = sortStrings ys ↔ xs.Perm ys := by
  constructor
  · intro h
    have p1 : (sortStrings xs).Perm xs := List.perm_insertionSort strLe xs
    have p2 : (sortStrings ys).Perm ys := List.perm_insertionSort strLe ys
    rw [← h] at p2
    exact p1.symm.trans p2
  · intro h
    have hp : (sortStrings xs).Perm (sortStrings ys) :=
      ((List.perm_insertionSort strLe xs).trans h).trans
        (List.perm_insertionSort strLe ys).symm
    have s1 : List.Sorted strLe (sortStrings xs) := List.sorted_insertionSort strLe xs
    have s2 : List.Sorted strLe (sortStrings ys) := List.sorted_insertionSort strLe ys
    exact List.eq_of_perm_of_sorted hp s1 s2

/-- sameIMMembers is reflexive. -/
theorem sameIMMembers_refl (im : Option IsMasterResponse) :
    sameIMMembers im im = true := by
  cases im with
  | none => rfl
  | some a => simp [sameIMMembers]

/-! ### Claim theorems -/

/-- C9.  readDocument is not total at its error interface: when the first
four stream bytes decode to a length L below 4 (negative included) it
panics — make with a negative size, or setInt32 past the end of the
allocation — rather than returning an error value, while for L at least 4
with enough bytes available it returns the L-byte document whose first
four bytes encode L, leaving the rest of the stream. -/
theorem readDocument_partial_totality (b0 b1 b2 b3 : Nat) (rest : List Nat)
    (L : Int) (hL : L = toInt32 (leU32 b0 b1 b2 b3)) :
    (L < 4 → readDocument (b0 :: b1 :: b2 :: b3 :: rest) = .panicked)
    ∧ (4 ≤ L → (L - 4).toNat ≤ rest.length →
        readDocument (b0 :: b1 :: b2 :: b3 :: rest)
          = .ok (encInt32 L ++ rest.take (L - 4).toNat) (rest.drop (L - 4).toNat)
        ∧ (encInt32 L ++ rest.take (L - 4).toNat).length = L.toNat) := by
  subst hL
  constructor
  · intro hlt
    unfold readDocument
    by_cases hneg : toInt32 (leU32 b0 b1 b2 b3) < 0
    · simp [hneg]
    · simp [hneg, hlt]
  · intro hge hlen
    unfold readDocument
    have hneg : ¬ toInt32 (leU32 b0 b1 b2 b3) < 0 := by omega
    have hlt : ¬ toInt32 (leU32 b0 b1 b2 b3) < 4 := by omega
    have hshort : ¬ rest.length < (toInt32 (leU32 b0 b1 b2 b3) - 4).toNat := by omega
    refine ⟨by simp [hneg, hlt, hshort], ?_⟩
    have htake : (rest.take ((toInt32 (leU32 b0 b1 b2 b3) - 4).toNat)).length
        = (toInt32 (leU32 b0 b1 b2 b3) - 4).toNat := by
      simp [List.length_take]
      omega
    simp [encInt32, htake]
    omega

/-- C9 witness: a declared length of 3 panics, a declared length of 6
with two body bytes present succeeds and returns the remaining stream. -/
theorem readDocument_partial_totality_witness :
    readDocument [3, 0, 0, 0, 9] = .panicked
    ∧ readDocument [6, 0, 0, 0, 7, 8, 9]
        = .ok (encInt32 (toInt32 (leU32 6 0 0 0))
                 ++ [7, 8, 9].take ((toInt32 (leU32 6 0 0 0) - 4).toNat))
              ([7, 8, 9].drop ((toInt32 (leU32 6 0 0 0) - 4).toNat)) :=
  ⟨(readDocument_partial_totality 3 0 0 0 [9] _ rfl).1 (by decide),
   ((readDocument_partial_totality 6 0 0 0 [7, 8, 9] _ rfl).2 (by decide) (by decide)).1⟩

/-- C2.  A getLastError request arriving while the cache is non-empty:
Rewrite writes nothing upstream and reads nothing from the server,
consumes exactly messageLength − written bytes from the client (written
being the length of the buffered parts), repoints the cached header's
responseTo at the new request id, and writes the cached header followed
by the cached payload to the client. -/
theorem getLastErrorRewriter_cache_hit (h : MessageHeader)
    (parts : List (List Nat)) (st : WireState) (le : LastError)
    (ch : MessageHeader) (hch : le.header = some ch)
    (hpend : 0 ≤ h.messageLength - partsLen parts)
    (hcl : (h.messageLength - partsLen parts).toNat ≤ st.clientIn.length) :
    gleRewrite h parts st le =
      .ok { clientIn := st.clientIn.drop (h.messageLength - partsLen parts).toNat,
            serverIn := st.serverIn,
            serverOut := st.serverOut,
            clientOut := st.clientOut
              ++ MessageHeader.toWire { ch with responseTo := h.requestID }
              ++ le.rest }
         { le with header := some { ch with responseTo := h.requestID } } := by
  unfold gleRewrite
  rw [hch]
  have hres : copyN (h.messageLength - partsLen parts) st.clientIn
      = (st.clientIn.take (h.messageLength - partsLen parts).toNat,
         st.clientIn.drop (h.messageLength - partsLen parts).toNat, true) := by
    unfold copyN
    by_cases hz : h.messageLength - partsLen parts = 0
    · simp [hz]
    · have hpos : ¬ h.messageLength - partsLen parts < 0 := by omega
      have hlen : ¬ st.clientIn.length < (h.messageLength - partsLen parts).toNat := by
        omega
      simp [hpos, hz, hlen]
  simp [hres]

/-- C2 witness: a concrete cache-hit run with a 20-byte request whose
first four bytes were buffered. -/
theorem getLastErrorRewriter_cache_hit_witness :
    gleRewrite { messageLength := 20, requestID := 42, responseTo := 0, opCode := 2004 }
        [[1, 2, 3, 4]]
        { clientIn := List.replicate 16 0, serverIn := [5], serverOut := [6], clientOut := [7] }
        { header := some { messageLength := 30, requestID := 1, responseTo := 2, opCode := 1 },
          rest := [9, 9] } =
      .ok { clientIn := (List.replicate 16 0).drop
              (((20 : Int) - partsLen [[1, 2, 3, 4]]).toNat),
            serverIn := [5],
            serverOut := [6],
            clientOut := [7]
              ++ MessageHeader.toWire { messageLength := 30, requestID := 1, responseTo := 42, opCode := 1 }
              ++ [9, 9] }
         { header := some { messageLength := 30, requestID := 1, responseTo := 42, opCode := 1 },
           rest := [9, 9] } :=
  getLastErrorRewriter_cache_hit
    { messageLength := 20, requestID := 42, responseTo := 0, opCode := 2004 }
    [[1, 2, 3, 4]]
    { clientIn := List.replicate 16 0, serverIn := [5], serverOut := [6], clientOut := [7] }
    { header := some { messageLength := 30, requestID := 1, responseTo := 2, opCode := 1 },
      rest := [9, 9] }
    { messageLength := 30, requestID := 1, responseTo := 2, opCode := 1 }
    rfl (by decide) (by decide)

/-- C8 counterexample.  A getLastError round-trip in which the server's
reply header (announcing a 30-byte message) is read but the payload copy
fails after 4 of the 14 bytes leaves the cache torn: the Rewrite call
errors, yet Exists() is true while only a partial payload is stored, so
the both-or-neither invariant the claim states does not survive the
error path. -/
theorem gleRewrite_error_leaves_torn_cache :
    (gleRewrite tornReqHeader tornParts tornSt { header := none, rest := [] }).isErr = true
    ∧ (gleRewrite tornReqHeader tornParts tornSt { header := none, rest := [] }).cache.exists
        = true
    ∧ (gleRewrite tornReqHeader tornParts tornSt { header := none, rest := [] }).cache.header
        = some { messageLength := 30, requestID := 5, responseTo := 1, opCode := 1 }
    ∧ (gleRewrite tornReqHeader tornParts tornSt { header := none, rest := [] }).cache.rest
        = [9, 9, 9, 9]
    ∧ lastErrorComplete
        (gleRewrite tornReqHeader tornParts tornSt { header := none, rest := [] }).cache
      = false := by
  decide

/-- C8 amended.  The both-or-neither invariant holds across Reset and
every Rewrite call that returns successfully: starting from a coherent
cache, a successful call leaves a stored header together with its
complete payload (or, for Reset, neither); only a call failing on the
error path may leave a torn cache. -/
theorem gleRewrite_ok_keeps_cache_complete (h : MessageHeader)
    (parts : List (List Nat)) (st : WireState) (le : LastError)
    (st' : WireState) (le' : LastError)
    (hle : lastErrorComplete le = true)
    (hok : gleRewrite h parts st le = .ok st' le') :
    lastErrorComplete le' = true ∧ lastErrorComplete le.reset = true := by
  refine ⟨?_, by rfl⟩
  obtain ⟨hdr, rest⟩ := le
  cases hdr with
  | some ch =>
    unfold gleRewrite at hok
    simp only at hok
    rcases hcopy : copyN (h.messageLength - partsLen parts) st.clientIn
      with ⟨copied, restC, ok1⟩
    rw [hcopy] at hok
    cases ok1 with
    | false => simp at hok
    | true =>
      simp at hok
      obtain ⟨-, hle'⟩ := hok
      subst hle'
      simpa [lastErrorComplete] using hle
  | none =>
    unfold gleRewrite at hok
    simp only at hok
    rcases hcopy : copyN (h.messageLength - partsLen parts) st.clientIn
      with ⟨copied, restC, ok1⟩
    rw [hcopy] at hok
    cases ok1 with
    | false => simp at hok
    | true =>
      simp at hok
      rcases hread : readHeader (st.serverIn) with ⟨hOpt, restS⟩
      rw [hread] at hok
      cases hOpt with
      | none => simp at hok
      | some lh =>
        simp only at hok
        rcases hcopy2 : copyN (lh.messageLength - headerLen) restS
          with ⟨copied2, restS2, ok2⟩
        rw [hcopy2] at hok
        cases ok2 with
        | false => simp at hok
        | true =>
          simp at hok
          obtain ⟨-, hle'⟩ := hok
          subst hle'
          have hrest : rest = [] := by simpa [lastErrorComplete] using hle
          obtain ⟨-, -, -, hclen⟩ := copyN_ok hcopy2
          simp [lastErrorComplete, hrest, hclen]

/-- C8 amended witness: Reset is coherent, and a concrete successful
cache-hit Rewrite keeps the coherent cache coherent. -/
theorem gleRewrite_ok_keeps_cache_complete_witness :
    lastErrorComplete
        { header := some { messageLength := 16, requestID := 1, responseTo := 9, opCode := 1 },
          rest := [] } = true
    ∧ lastErrorComplete
        (LastError.reset { header := none, rest := [] }) = true :=
  gleRewrite_ok_keeps_cache_complete
    { messageLength := 16, requestID := 9, responseTo := 0, opCode := 2004 }
    [[1, 2, 3, 4], [5, 6, 7, 8], [9, 10, 11, 12], [13, 14, 15, 16]]
    { clientIn := [], serverIn := [], serverOut := [], clientOut := [] }
    { header := some { messageLength := 16, requestID := 1, responseTo := 2, opCode := 1 },
      rest := [] }
    { clientIn := [], serverIn := [], serverOut := [],
      clientOut := [] ++ MessageHeader.toWire
        { messageLength := 16, requestID := 1, responseTo := 9, opCode := 1 } ++ [] }
    { header := some { messageLength := 16, requestID := 1, responseTo := 9, opCode := 1 },
      rest := [] }
    (by decide) (by decide)

/-- C7.  In every state of the pool coordinator loop reachable under any
interleaving of Acquire, Release, Discard, new-resource arrival, idle
ticks and Close, the number of idle entries plus the checked-out count
never exceeds the configured Max. -/
theorem pool_idle_plus_checkedOut_le_max (cfg : PoolCfg) (s : PoolSt)
    (h : PoolReach cfg s) : s.idle.length + s.out ≤ cfg.max :=
  (poolReach_inv h).1

/-- C7 witness: in the pool with Max 2, the state reached by an acquire,
a new-resource arrival and a release satisfies the bound. -/
theorem pool_idle_plus_checkedOut_le_max_witness :
    (releaseStep (newArrivedStep (acquireStep { max := 2, minIdle := 1, idleTimeout := 5 }
        { idle := [], out := 0, waiting := 0, held := 0, pendingNew := 0, closed := false })) 3).idle.length
      + (releaseStep (newArrivedStep (acquireStep { max := 2, minIdle := 1, idleTimeout := 5 }
        { idle := [], out := 0, waiting := 0, held := 0, pendingNew := 0, closed := false })) 3).out
      ≤ 2 :=
  pool_idle_plus_checkedOut_le_max _ _
    (PoolReach.release 3
      (PoolReach.newArrived (PoolReach.acquire PoolReach.init) (by decide))
      (by decide))

/-- C10.  The per-client-IP session cap: in every counts map reachable
through the serve loop's protocol each stored count stays at or below
MaxPerClientConnections; a connection from an address at the cap is
rejected by the serve prologue with the map unchanged and no client byte
read; and Proxy.Start refuses to start whenever MaxPerClientConnections
is zero. -/
theorem perClient_connection_cap :
    (∀ (m : Nat) (c : List (String × Nat)), m < uintMod → MpcReach m c →
      ∀ ip, mpcLookup c ip ≤ m)
    ∧ (∀ (m : Nat) (c : List (String × Nat)) (ip : String) (clientIn : List Nat),
        m ≤ mpcLookup c ip →
        clientServeStart m c ip clientIn
          = { counts := c, clientRemaining := clientIn, accepted := false })
    ∧ (∀ mc : Nat, proxyStartCheck mc 0 ≠ none) := by
  refine ⟨?_, ?_, ?_⟩
  · intro m c hm h ip
    exact mpcLookup_le_of_entries (mpcReach_entries h hm) ip
  · intro m c ip clientIn hcap
    unfold clientServeStart mpcInc
    have : mpcLookup c ip ≥ m := hcap
    simp [this]
  · intro mc
    unfold proxyStartCheck
    by_cases hmc : mc == 0
    · simp [hmc]
    · simp [hmc]

/-- C10 witness: a two-event reachable map stays below cap 1, a concrete
at-cap connection is turned away untouched, and Start with the cap
configured to zero fails. -/
theorem perClient_connection_cap_witness :
    mpcLookup (mpcInc 1 [] "10.0.0.9").1 "10.0.0.9" ≤ 1
    ∧ clientServeStart 1 [("10.0.0.9", 1)] "10.0.0.9" [7, 7]
        = { counts := [("10.0.0.9", 1)], clientRemaining := [7, 7], accepted := false }
    ∧ proxyStartCheck 100 0 ≠ none :=
  ⟨perClient_connection_cap.1 1 _ (by decide)
      (MpcReach.connect "10.0.0.9" MpcReach.init) "10.0.0.9",
   perClient_connection_cap.2.1 1 [("10.0.0.9", 1)] "10.0.0.9" [7, 7] (by decide),
   perClient_connection_cap.2.2 100⟩

/-- C1.  The claim states that with a rewriter selected, resetLastError is
false exactly when the query document carries forShell.  The code assigns
resetLastError = hasKey(q, "forShell"), the exact opposite of its own
comment ("If forShell is specified, we don't want to reset the last
error"): an isMaster query WITH forShell computes resetLastError = true
and resets a non-empty cache, and one WITHOUT forShell computes false and
leaves the cache alone. -/
theorem proxyQuery_forShell_resets_cache :
    proxyQueryRoute false (cstrBytes "test.$cmd") ["isMaster", "forShell"]
      = .proxied (some .isMasterRW) true
    ∧ proxyQueryRoute false (cstrBytes "test.$cmd") ["isMaster"]
      = .proxied (some .isMasterRW) false
    ∧ proxyQueryCacheAfter (.proxied (some .isMasterRW) true)
        { header := some ⟨16, 7, 0, 1⟩, rest := [1, 2, 3] }
      = { header := none, rest := [] }
    ∧ proxyQueryCacheAfter (.proxied (some .isMasterRW) false)
        { header := some ⟨16, 7, 0, 1⟩, rest := [1, 2, 3] }
      = { header := some ⟨16, 7, 0, 1⟩, rest := [1, 2, 3] } := by
  decide

/-- C3.  On the canonical example reply with map a↦1, b↦2, c↦3 the code
maps hosts, primary and me but leaves passives untouched: passives has no
field in isMasterResponse, rides in the inline Extra map, and round-trips
as ["a"], not the ["1"] the claim (and the repository's own
TestIsMasterResponseRewriterSuccessWithPassives) expects. -/
theorem isMaster_rewrite_passives_unmapped :
    isMasterRewriteDoc exampleMapper exampleIMReply
      = .ok { hosts := ["1", "2", "3"], primary := "2", me := "1",
              extra := [("foo", .str "bar"), ("passives", .strList ["a"])] }
    ∧ isMasterRewriteDoc exampleMapper exampleIMReply
      ≠ .ok { hosts := ["1", "2", "3"], primary := "2", me := "1",
              extra := [("foo", .str "bar"), ("passives", .strList ["1"])] } := by
  decide

/-- C4.  The single-node validation of NewReplicaSetState rejects a sole
member in state PRIMARY and one in state SECONDARY alike: the condition
n.State != "PRIMARY" || n.State != "SECONDARY" is a tautology, so every
single-member status reply raises the "single node RS in bad state"
error, contradicting the claim (and the error's own wording). -/
theorem newReplicaSetState_rejects_single_primary :
    singleNodeCheckFails
      (some { name := "rs", members := [{ name := "a:1", state := "PRIMARY", self := true }] })
      = true
    ∧ singleNodeCheckFails
        (some { name := "rs", members := [{ name := "a:1", state := "SECONDARY", self := true }] })
      = true
    ∧ singleNodeCheckFails
        (some { name := "rs", members := [{ name := "a:1", state := "STARTUP", self := true }] })
      = true := by
  decide

/-- C5 counterexample.  hosts [a,b] with primary c and hosts [a,c] with
primary b have the same hosts-union-primary multiset, yet sameIMMembers
returns false: the primary is appended after sorting, so it is compared
positionally against the other primary only. -/
theorem sameIMMembers_union_multiset_cex :
    sameIMMembers
        (some { hosts := ["a", "b"], primary := "c", me := "", extra := [] })
        (some { hosts := ["a", "c"], primary := "b", me := "", extra := [] })
      = false
    ∧ (["a", "b"] ++ ["c"] : List String).Perm (["a", "c"] ++ ["b"]) := by
  decide

/-- C5 amended.  The isMaster sides of two snapshots compare equal
exactly when their hosts lists are permutations of one another (equal
hosts multisets) and their primary fields are literally equal: the
comparison appends the primary after sorting the hosts, so the primary is
matched against the other primary positionally rather than folded into
the sorted multiset. -/
theorem sameIMMembers_iff_hosts_perm_and_primary (a b : IsMasterResponse) :
    sameIMMembers (some a) (some b) = true
      ↔ (a.hosts.Perm b.hosts ∧ a.primary = b.primary) := by
  show (if a.hosts.length != b.hosts.length then false
        else (sortStrings a.hosts ++ [a.primary]) == (sortStrings b.hosts ++ [b.primary]))
      = true ↔ _
  by_cases hlen : a.hosts.length = b.hosts.length
  · rw [if_neg (by simp [hlen])]
    constructor
    · intro hbeq
      have heq : sortStrings a.hosts ++ [a.primary]
          = sortStrings b.hosts ++ [b.primary] := by simpa using hbeq
      obtain ⟨hs, hp⟩ := List.append_inj' heq (by simp)
      refine ⟨(sortStrings_eq_iff_perm _ _).mp hs, ?_⟩
      simpa using hp
    · rintro ⟨hperm, hprim⟩
      have hs : sortStrings a.hosts = sortStrings b.hosts :=
        (sortStrings_eq_iff_perm _ _).mpr hperm
      simp [hs, hprim]
  · rw [if_pos (by simp [hlen])]
    simp only [Bool.false_eq_true, false_iff]
    rintro ⟨hperm, -⟩
    exact hlen hperm.length_eq

/-- C6 amended.  Equal and SameRS never consult the replica-set name:
two snapshots whose status replies carry the same member list compare
equal whatever their set names (different names included), provided their
isMaster sides coincide. -/
theorem equal_ignores_set_name (n₁ n₂ : String) (ms : List StatusMember)
    (im : Option IsMasterResponse) (sa₁ sa₂ : String) :
    ReplicaSetState.equal
        { lastRS := some { name := n₁, members := ms }, lastIM := im, singleAddr := sa₁ }
        { lastRS := some { name := n₂, members := ms }, lastIM := im, singleAddr := sa₂ }
      = true := by
  unfold ReplicaSetState.equal ReplicaSetState.sameIM ReplicaSetState.sameRS
  simp only [sameIMMembers_refl, Bool.true_and]
  unfold sameRSMembers
  by_cases hms : ms.isEmpty <;> simp [hms]

/-- C6 counterexample.  Two snapshots that differ in the replica-set name
(rs1 versus rs2) but agree on the member list compare equal under both
Equal and SameRS: neither ever consults the name field. -/
theorem equal_ignores_set_name_cex :
    ("rs1" : String) ≠ "rs2"
    ∧ nameSnap1.equal nameSnap2 = true
    ∧ nameSnap1.sameRS (some { name := "rs2",
                               members := [{ name := "a:1", state := "PRIMARY", self := true }] })
      = true := by
  decide

end Dvara
